import Mathlib

/-!
Verification of the NFTMarketplace contract (Solidity 0.8, OpenZeppelin ERC721).

The contract state is embedded shallowly: Solidity mappings become total
functions with the zero value as default (exactly the storage semantics),
uint256 counters become Nat, addresses become Nat with 0 as the zero address,
and every public entry point becomes a function returning `Except MarketErr
State`, where an error models a revert (atomic: the caller keeps the old
state). Ether transfers performed by the contract are recorded in an
append-only log of (recipient, amount) pairs; the funds layer itself
(balances of externally owned accounts) is an external collaborator and is
not modelled. The relevant parts of the OpenZeppelin ERC721 base
(ownership mapping, mint, transfer, token URIs) are embedded as well, since
the entry points delegate custody checks to them.
-/

set_option linter.unusedVariables false

namespace NFTMarket

/-- Accounts are natural numbers; 0 is the Solidity zero address. -/
abbrev Account := Nat

/-- One constructor per distinct revert reachable from the contract code:
the five require messages of NFTMarketplace itself plus the reverts of the
OpenZeppelin ERC721 / Counters code it calls.

`InvalidPrice` is the require "Price must be greater than zero";
`InvalidPayment` covers "Price must be equal to listing price" (list and
resell) and "Please submit the asking price in order to complete the
purchase" (sale); `Unauthorized` covers "Only item owner can perform this
operation" (resell) and "Only item seller can perform this operation"
(cancel); `AlreadySold` is "Only cancel items which are not sold yet";
`Forbidden` is "Only marketplace owner can update listing price". -/
inductive MarketErr where
  | InvalidPrice
  | InvalidPayment
  | Unauthorized
  | AlreadySold
  | Forbidden
  | ERC721MintToZero
  | ERC721AlreadyMinted
  | ERC721NonexistentToken
  | ERC721IncorrectOwner
  | ERC721TransferToZero
  | ERC721URINonexistent
  | CounterUnderflow
deriving DecidableEq

/-- The MarketItem struct of the contract. -/
structure MarketItem where
  tokenId : Nat
  seller : Account
  owner : Account
  price : Nat
  sold : Bool
deriving DecidableEq

/-- The all-zero struct a Solidity mapping returns for an absent key. -/
def zeroItem : MarketItem := ⟨0, 0, 0, 0, false⟩

/-- The full contract storage. `thisAddr` is address(this) (the escrow
account), `owner` is the contract owner set in the constructor (the
administrator), `tokenIds` and `itemsSold` are the two Counters,
`items` is the idToMarketItem mapping, `nftOwner` is the ERC721 owners
mapping (0 meaning the token does not exist), `uris` is the
ERC721URIStorage mapping, and `transfers` logs every ether transfer the
contract has executed, in order. -/
structure State where
  thisAddr : Account
  owner : Account
  tokenIds : Nat
  itemsSold : Nat
  listingPrice : Nat
  items : Nat → MarketItem
  nftOwner : Nat → Account
  uris : Nat → String
  transfers : List (Account × Nat)

/-- listingPrice = 0.001 ether, in wei. -/
def initialListingPrice : Nat := 1000000000000000

/-- Freshly deployed contract: the deployer `admin` becomes the owner. -/
def initState (thisAddr admin : Account) : State :=
  ⟨thisAddr, admin, 0, 0, initialListingPrice, fun _ => zeroItem, fun _ => 0,
    fun _ => "", []⟩

/-- Storage write idToMarketItem[id] = r. -/
def setItem (s : State) (id : Nat) (r : MarketItem) : State :=
  { s with items := fun i => if i = id then r else s.items i }

/-- Storage write of the ERC721 owners mapping at one id. -/
def setNftOwner (s : State) (id : Nat) (a : Account) : State :=
  { s with nftOwner := fun i => if i = id then a else s.nftOwner i }

/-- payable(to).transfer(amt): appended to the transfer log. -/
def transferEth (s : State) (recipient amt : Nat) : State :=
  { s with transfers := s.transfers ++ [(recipient, amt)] }

/-- OpenZeppelin ERC721 _mint: requires a nonzero recipient and an id that
is not yet minted. -/
def erc721Mint (s : State) (recipient id : Nat) : Except MarketErr State :=
  if recipient = 0 then .error .ERC721MintToZero
  else if s.nftOwner id ≠ 0 then .error .ERC721AlreadyMinted
  else .ok (setNftOwner s id recipient)

/-- OpenZeppelin ERC721 _transfer: ownerOf reverts on a nonexistent token,
then the current owner must equal `fromA`, and the recipient must be
nonzero. -/
def erc721Transfer (s : State) (fromA recipient id : Nat) : Except MarketErr State :=
  if s.nftOwner id = 0 then .error .ERC721NonexistentToken
  else if s.nftOwner id ≠ fromA then .error .ERC721IncorrectOwner
  else if recipient = 0 then .error .ERC721TransferToZero
  else .ok (setNftOwner s id recipient)

/-- ERC721URIStorage _setTokenURI: requires the token to exist. -/
def setTokenURI (s : State) (id : Nat) (uri : String) : Except MarketErr State :=
  if s.nftOwner id = 0 then .error .ERC721URINonexistent
  else .ok { s with uris := fun i => if i = id then uri else s.uris i }

/-- getListingPrice(). -/
def getListingPrice (s : State) : Nat := s.listingPrice

/-- updateListingPrice(uint _listingPrice): only the contract owner. -/
def updateListingPrice (s : State) (newPrice : Nat) (caller : Account) :
    Except MarketErr State :=
  if s.owner = caller then .ok { s with listingPrice := newPrice }
  else .error .Forbidden

/-- createMarketItem(uint256 tokenId, uint256 price), private helper of
createToken: requires price > 0 and msg.value == listingPrice, writes the
fresh record with the caller as seller and the contract as owner, and
moves ERC721 custody from the caller to the contract. -/
def createMarketItem (s : State) (tokenId price msgValue : Nat) (caller : Account) :
    Except MarketErr State :=
  if price = 0 then .error .InvalidPrice
  else if msgValue ≠ s.listingPrice then .error .InvalidPayment
  else
    erc721Transfer (setItem s tokenId ⟨tokenId, caller, s.thisAddr, price, false⟩)
      caller s.thisAddr tokenId

/-- createToken(string tokenURI, uint256 price): increments the token
counter, mints the new id to the caller, stores the URI, and lists it via
createMarketItem. Returns the new token id. -/
def createToken (s : State) (uri : String) (price msgValue : Nat) (caller : Account) :
    Except MarketErr (Nat × State) :=
  let newTokenId := s.tokenIds + 1
  let s1 : State := { s with tokenIds := newTokenId }
  match erc721Mint s1 caller newTokenId with
  | .error e => .error e
  | .ok s2 =>
    match setTokenURI s2 newTokenId uri with
    | .error e => .error e
    | .ok s3 =>
      match createMarketItem s3 newTokenId price msgValue caller with
      | .error e => .error e
      | .ok s4 => .ok (newTokenId, s4)

/-- createMarketSale(uint256 tokenId): requires msg.value to equal the
stored price (0 for an absent record), rewrites the record as sold with
the buyer as owner and the seller cleared, increments itemsSold, moves
ERC721 custody from the contract to the buyer, then transfers the listing
fee to the contract owner and the full msg.value to the prior seller. -/
def createMarketSale (s : State) (tokenId msgValue : Nat) (caller : Account) :
    Except MarketErr State :=
  if msgValue ≠ (s.items tokenId).price then .error .InvalidPayment
  else
    let s1 := setItem s tokenId
      { s.items tokenId with owner := caller, sold := true, seller := 0 }
    let s2 : State := { s1 with itemsSold := s1.itemsSold + 1 }
    match erc721Transfer s2 s.thisAddr caller tokenId with
    | .error e => .error e
    | .ok s3 =>
      .ok (transferEth (transferEth s3 s.owner s.listingPrice)
            (s.items tokenId).seller msgValue)

/-- The identifiers scanned by every fetch function: 1 up to tokenIds. -/
def idsUpTo (n : Nat) : List Nat := (List.range n).map (· + 1)

/-- fetchMarketItems(): the records whose owner is the contract itself,
scanned in ascending id order. (The Solidity code preallocates an array of
length tokenIds - itemsSold and fills it from this scan; the fill equals
this filtered scan whenever that length matches the number of hits, which
the reachable-state invariant below establishes.) -/
def fetchMarketItems (s : State) : List MarketItem :=
  ((idsUpTo s.tokenIds).filter (fun id => (s.items id).owner == s.thisAddr)).map s.items

/-- The array length fetchMarketItems preallocates. -/
def unsoldItemCount (s : State) : Nat := s.tokenIds - s.itemsSold

/-- fetchMyNFTs(): records whose owner is the caller, in ascending id order. -/
def fetchMyNFTs (s : State) (caller : Account) : List MarketItem :=
  ((idsUpTo s.tokenIds).filter (fun id => (s.items id).owner == caller)).map s.items

/-- fetchItemsListed(): records whose seller is the caller, in ascending id
order. -/
def fetchItemsListed (s : State) (caller : Account) : List MarketItem :=
  ((idsUpTo s.tokenIds).filter (fun id => (s.items id).seller == caller)).map s.items

/-- resellToken(uint256 tokenId, uint256 price): requires the caller to be
the record owner and msg.value == listingPrice; no check on the new price.
Rewrites the record as an active listing at the new price, decrements
itemsSold (Counters.decrement reverts at 0), and moves ERC721 custody back
to the contract. -/
def resellToken (s : State) (tokenId price msgValue : Nat) (caller : Account) :
    Except MarketErr State :=
  if (s.items tokenId).owner ≠ caller then .error .Unauthorized
  else if msgValue ≠ s.listingPrice then .error .InvalidPayment
  else if s.itemsSold = 0 then .error .CounterUnderflow
  else
    let s1 := setItem s tokenId
      { s.items tokenId with
          sold := false, price := price, seller := caller, owner := s.thisAddr }
    let s2 : State := { s1 with itemsSold := s1.itemsSold - 1 }
    erc721Transfer s2 caller s.thisAddr tokenId

/-- cancelItemListing(uint256 tokenId): requires the caller to be the
stored seller (checked first) and the record unsold. Returns the item to
the caller, clears the seller, marks it sold, increments itemsSold,
transfers the retained listing fee to the contract owner, and moves ERC721
custody from the contract to the caller. -/
def cancelItemListing (s : State) (tokenId : Nat) (caller : Account) :
    Except MarketErr State :=
  if (s.items tokenId).seller ≠ caller then .error .Unauthorized
  else if (s.items tokenId).sold then .error .AlreadySold
  else
    let s1 := setItem s tokenId
      { s.items tokenId with owner := caller, seller := 0, sold := true }
    let s2 : State := { s1 with itemsSold := s1.itemsSold + 1 }
    erc721Transfer (transferEth s2 s.owner s.listingPrice) s.thisAddr caller tokenId

/-- A transaction sender is an externally owned account: never the zero
address and never the contract itself. -/
def EOA (s : State) (caller : Account) : Prop :=
  caller ≠ 0 ∧ caller ≠ s.thisAddr

/-- One successful state-changing transaction against the contract. A
reverted call leaves the state unchanged, so only successful calls appear. -/
inductive Step : State → State → Prop where
  | list : ∀ s uri price msgValue caller id s', EOA s caller →
      createToken s uri price msgValue caller = .ok (id, s') → Step s s'
  | sale : ∀ s tokenId msgValue caller s', EOA s caller →
      createMarketSale s tokenId msgValue caller = .ok s' → Step s s'
  | resell : ∀ s tokenId price msgValue caller s', EOA s caller →
      resellToken s tokenId price msgValue caller = .ok s' → Step s s'
  | cancel : ∀ s tokenId caller s', EOA s caller →
      cancelItemListing s tokenId caller = .ok s' → Step s s'
  | setFee : ∀ s newPrice caller s', EOA s caller →
      updateListingPrice s newPrice caller = .ok s' → Step s s'

/-- States reachable from a fresh deployment by any sequence of successful
transactions. The deployer and the contract address are distinct nonzero
accounts. -/
inductive Reachable : State → Prop where
  | init : ∀ thisAddr admin, thisAddr ≠ 0 → admin ≠ 0 → admin ≠ thisAddr →
      Reachable (initState thisAddr admin)
  | step : ∀ s s', Reachable s → Step s s' → Reachable s'

/-- Number of ids in 1..tokenIds whose record is flagged sold. -/
def soldCount (s : State) : Nat :=
  (idsUpTo s.tokenIds).countP (fun id => (s.items id).sold)

lemma mem_idsUpTo {i n : Nat} : i ∈ idsUpTo n ↔ 1 ≤ i ∧ i ≤ n := by
  simp only [idsUpTo, List.mem_map, List.mem_range]
  constructor
  · rintro ⟨a, ha, rfl⟩; omega
  · intro h; exact ⟨i - 1, by omega, by omega⟩

lemma nodup_idsUpTo (n : Nat) : (idsUpTo n).Nodup :=
  (List.nodup_range n).map (fun a b h => by omega)

lemma length_idsUpTo (n : Nat) : (idsUpTo n).length = n := by
  simp [idsUpTo]

lemma idsUpTo_succ (n : Nat) : idsUpTo (n + 1) = idsUpTo n ++ [n + 1] := by
  simp [idsUpTo, List.range_succ]

lemma countP_congr_on (l : List Nat) (f g : Nat → Bool) (h : ∀ i ∈ l, f i = g i) :
    l.countP f = l.countP g := by
  induction l with
  | nil => rfl
  | cons a t ih =>
      simp only [List.countP_cons]
      rw [ih (fun i hi => h i (List.mem_cons_of_mem a hi)), h a (List.mem_cons_self a t)]

/-- Changing the record predicate at one in-range id shifts the count by the
difference of the flag at that id. Stated additively to avoid truncated
subtraction. -/
lemma countP_flip {n j : Nat} (h1 : 1 ≤ j) (h2 : j ≤ n) (f g : Nat → Bool)
    (hfg : ∀ i, i ≠ j → g i = f i) :
    (idsUpTo n).countP g + (if f j then 1 else 0)
      = (idsUpTo n).countP f + (if g j then 1 else 0) := by
  have hj : j ∈ idsUpTo n := mem_idsUpTo.mpr ⟨h1, h2⟩
  have hperm := List.perm_cons_erase hj
  have hnotmem : j ∉ (idsUpTo n).erase j := (nodup_idsUpTo n).not_mem_erase
  rw [hperm.countP_eq g, hperm.countP_eq f]
  simp only [List.countP_cons]
  have hrest : ((idsUpTo n).erase j).countP g = ((idsUpTo n).erase j).countP f := by
    apply countP_congr_on
    intro i hi
    exact hfg i (fun hij => hnotmem (hij ▸ hi))
  rw [hrest]
  cases f j <;> cases g j <;> simp

lemma erc721Mint_ok {s : State} {recipient id : Nat} {s' : State}
    (h : erc721Mint s recipient id = .ok s') :
    recipient ≠ 0 ∧ s.nftOwner id = 0 ∧ s' = setNftOwner s id recipient := by
  unfold erc721Mint at h
  split at h
  · cases h
  · split at h
    · cases h
    · rename_i h1 h2
      cases h
      exact ⟨h1, by simpa using h2, rfl⟩

lemma erc721Transfer_ok {s : State} {fromA recipient id : Nat} {s' : State}
    (h : erc721Transfer s fromA recipient id = .ok s') :
    s.nftOwner id = fromA ∧ fromA ≠ 0 ∧ recipient ≠ 0 ∧
      s' = setNftOwner s id recipient := by
  unfold erc721Transfer at h
  split at h
  · cases h
  · split at h
    · cases h
    · split at h
      · cases h
      · rename_i h1 h2 h3
        cases h
        have heq : s.nftOwner id = fromA := by simpa using h2
        exact ⟨heq, fun hf => h1 (heq.trans hf), h3, rfl⟩

lemma setTokenURI_ok {s : State} {id : Nat} {uri : String} {s' : State}
    (h : setTokenURI s id uri = .ok s') :
    s.nftOwner id ≠ 0 ∧
      s' = { s with uris := fun i => if i = id then uri else s.uris i } := by
  unfold setTokenURI at h
  split at h
  · cases h
  · rename_i h1
    cases h
    exact ⟨h1, rfl⟩

lemma updateListingPrice_ok {s : State} {p : Nat} {c : Account} {s' : State}
    (h : updateListingPrice s p c = .ok s') :
    c = s.owner ∧ s' = { s with listingPrice := p } := by
  unfold updateListingPrice at h
  split at h
  · rename_i h1
    cases h
    exact ⟨h1.symm, rfl⟩
  · cases h

lemma createMarketItem_ok {s : State} {tokenId price msgValue : Nat}
    {caller : Account} {s' : State}
    (h : createMarketItem s tokenId price msgValue caller = .ok s') :
    price ≠ 0 ∧ msgValue = s.listingPrice ∧ s.nftOwner tokenId = caller ∧
      caller ≠ 0 ∧ s.thisAddr ≠ 0 ∧
      s' = setNftOwner
        (setItem s tokenId ⟨tokenId, caller, s.thisAddr, price, false⟩)
        tokenId s.thisAddr := by
  unfold createMarketItem at h
  split at h
  · cases h
  · split at h
    · cases h
    · rename_i h1 h2
      obtain ⟨ho, hfrom, hto, hs⟩ := erc721Transfer_ok h
      simp only [setItem] at ho
      exact ⟨h1, by simpa using h2, ho, hfrom, hto, hs⟩

/-- Inversion of a successful createToken: the preconditions that must have
held and the complete observable description of the new state. -/
lemma createToken_ok {s : State} {uri : String} {price msgValue : Nat}
    {caller : Account} {id : Nat} {s' : State}
    (h : createToken s uri price msgValue caller = .ok (id, s')) :
    id = s.tokenIds + 1 ∧ caller ≠ 0 ∧ price ≠ 0 ∧ msgValue = s.listingPrice ∧
      s.nftOwner id = 0 ∧ s.thisAddr ≠ 0 ∧
      s'.thisAddr = s.thisAddr ∧ s'.owner = s.owner ∧
      s'.tokenIds = s.tokenIds + 1 ∧ s'.itemsSold = s.itemsSold ∧
      s'.listingPrice = s.listingPrice ∧
      s'.items id = ⟨id, caller, s.thisAddr, price, false⟩ ∧
      (∀ i, i ≠ id → s'.items i = s.items i) ∧
      s'.nftOwner id = s.thisAddr ∧
      (∀ i, i ≠ id → s'.nftOwner i = s.nftOwner i) ∧
      s'.transfers = s.transfers := by
  unfold createToken at h
  dsimp only at h
  split at h
  · cases h
  · rename_i s2 hmint
    split at h
    · cases h
    · rename_i s3 huri
      split at h
      · cases h
      · rename_i s4 hitem
        cases h
        obtain ⟨hc0, hnο, hs2⟩ := erc721Mint_ok hmint
        obtain ⟨_, hs3⟩ := setTokenURI_ok huri
        obtain ⟨hp0, hv, _, _, hthis, hs4⟩ := createMarketItem_ok hitem
        subst hs2 hs3 hs4
        refine ⟨rfl, hc0, hp0, by simpa [setNftOwner] using hv, by simpa using hnο,
          by simpa [setNftOwner, setItem] using hthis, ?_, ?_, ?_, ?_, ?_, ?_, ?_, ?_, ?_, ?_⟩
        · simp [setNftOwner, setItem]
        · simp [setNftOwner, setItem]
        · simp [setNftOwner, setItem]
        · simp [setNftOwner, setItem]
        · simp [setNftOwner, setItem]
        · simp [setNftOwner, setItem]
        · intro i hi
          simp [setNftOwner, setItem, hi]
        · simp [setNftOwner, setItem]
        · intro i hi
          simp [setNftOwner, setItem, hi]
        · simp [setNftOwner, setItem]

/-- Inversion of a successful createMarketSale. -/
lemma createMarketSale_ok {s : State} {tokenId msgValue : Nat}
    {caller : Account} {s' : State}
    (h : createMarketSale s tokenId msgValue caller = .ok s') :
    msgValue = (s.items tokenId).price ∧ s.nftOwner tokenId = s.thisAddr ∧
      s.thisAddr ≠ 0 ∧ caller ≠ 0 ∧
      s'.thisAddr = s.thisAddr ∧ s'.owner = s.owner ∧ s'.tokenIds = s.tokenIds ∧
      s'.itemsSold = s.itemsSold + 1 ∧ s'.listingPrice = s.listingPrice ∧
      s'.items tokenId
        = { s.items tokenId with owner := caller, sold := true, seller := 0 } ∧
      (∀ i, i ≠ tokenId → s'.items i = s.items i) ∧
      s'.nftOwner tokenId = caller ∧
      (∀ i, i ≠ tokenId → s'.nftOwner i = s.nftOwner i) ∧
      s'.transfers = s.transfers
        ++ [(s.owner, s.listingPrice), ((s.items tokenId).seller, msgValue)] := by
  unfold createMarketSale at h
  dsimp only at h
  split at h
  · cases h
  · rename_i hv
    split at h
    · cases h
    · rename_i s3 htr
      cases h
      obtain ⟨ho, hfrom, hto, hs3⟩ := erc721Transfer_ok htr
      simp only [setNftOwner, setItem] at ho
      subst hs3
      refine ⟨by simpa using hv, ho, hfrom, hto, ?_, ?_, ?_, ?_, ?_, ?_, ?_, ?_, ?_, ?_⟩
      · simp [transferEth, setNftOwner, setItem]
      · simp [transferEth, setNftOwner, setItem]
      · simp [transferEth, setNftOwner, setItem]
      · simp [transferEth, setNftOwner, setItem]
      · simp [transferEth, setNftOwner, setItem]
      · simp [transferEth, setNftOwner, setItem]
      · intro i hi
        simp [transferEth, setNftOwner, setItem, hi]
      · simp [transferEth, setNftOwner, setItem]
      · intro i hi
        simp [transferEth, setNftOwner, setItem, hi]
      · simp [transferEth, setNftOwner, setItem]

/-- Inversion of a successful resellToken. Note the absence of any
requirement on the new price: zero is accepted. -/
lemma resellToken_ok {s : State} {tokenId price msgValue : Nat}
    {caller : Account} {s' : State}
    (h : resellToken s tokenId price msgValue caller = .ok s') :
    (s.items tokenId).owner = caller ∧ msgValue = s.listingPrice ∧
      s.itemsSold ≠ 0 ∧ s.nftOwner tokenId = caller ∧ caller ≠ 0 ∧
      s.thisAddr ≠ 0 ∧
      s'.thisAddr = s.thisAddr ∧ s'.owner = s.owner ∧ s'.tokenIds = s.tokenIds ∧
      s'.itemsSold = s.itemsSold - 1 ∧ s'.listingPrice = s.listingPrice ∧
      s'.items tokenId = { s.items tokenId with
        sold := false, price := price, seller := caller, owner := s.thisAddr } ∧
      (∀ i, i ≠ tokenId → s'.items i = s.items i) ∧
      s'.nftOwner tokenId = s.thisAddr ∧
      (∀ i, i ≠ tokenId → s'.nftOwner i = s.nftOwner i) ∧
      s'.transfers = s.transfers := by
  unfold resellToken at h
  dsimp only at h
  split at h
  · cases h
  · split at h
    · cases h
    · split at h
      · cases h
      · rename_i h1 h2 h3
        obtain ⟨ho, hfrom, hto, hs'⟩ := erc721Transfer_ok h
        simp only [setNftOwner, setItem] at ho
        subst hs'
        refine ⟨by simpa using h1, by simpa using h2, h3, ho, hfrom, hto,
          ?_, ?_, ?_, ?_, ?_, ?_, ?_, ?_, ?_, ?_⟩
        · simp [setNftOwner, setItem]
        · simp [setNftOwner, setItem]
        · simp [setNftOwner, setItem]
        · simp [setNftOwner, setItem]
        · simp [setNftOwner, setItem]
        · simp [setNftOwner, setItem]
        · intro i hi
          simp [setNftOwner, setItem, hi]
        · simp [setNftOwner, setItem]
        · intro i hi
          simp [setNftOwner, setItem, hi]
        · simp [setNftOwner, setItem]

/-- Inversion of a successful cancelItemListing: the caller must be the
stored seller and the record must be unsold. -/
lemma cancelItemListing_ok {s : State} {tokenId : Nat}
    {caller : Account} {s' : State}
    (h : cancelItemListing s tokenId caller = .ok s') :
    (s.items tokenId).seller = caller ∧ (s.items tokenId).sold = false ∧
      s.nftOwner tokenId = s.thisAddr ∧ caller ≠ 0 ∧ s.thisAddr ≠ 0 ∧
      s'.thisAddr = s.thisAddr ∧ s'.owner = s.owner ∧ s'.tokenIds = s.tokenIds ∧
      s'.itemsSold = s.itemsSold + 1 ∧ s'.listingPrice = s.listingPrice ∧
      s'.items tokenId
        = { s.items tokenId with owner := caller, seller := 0, sold := true } ∧
      (∀ i, i ≠ tokenId → s'.items i = s.items i) ∧
      s'.nftOwner tokenId = caller ∧
      (∀ i, i ≠ tokenId → s'.nftOwner i = s.nftOwner i) ∧
      s'.transfers = s.transfers ++ [(s.owner, s.listingPrice)] := by
  unfold cancelItemListing at h
  dsimp only at h
  split at h
  · cases h
  · split at h
    · cases h
    · rename_i h1 h2
      obtain ⟨ho, hfrom, hto, hs'⟩ := erc721Transfer_ok h
      simp only [transferEth, setNftOwner, setItem] at ho
      subst hs'
      refine ⟨by simpa using h1, by simpa using h2, ho, hto, hfrom,
        ?_, ?_, ?_, ?_, ?_, ?_, ?_, ?_, ?_, ?_⟩
      · simp [transferEth, setNftOwner, setItem]
      · simp [transferEth, setNftOwner, setItem]
      · simp [transferEth, setNftOwner, setItem]
      · simp [transferEth, setNftOwner, setItem]
      · simp [transferEth, setNftOwner, setItem]
      · simp [transferEth, setNftOwner, setItem]
      · intro i hi
        simp [transferEth, setNftOwner, setItem, hi]
      · simp [transferEth, setNftOwner, setItem]
      · intro i hi
        simp [transferEth, setNftOwner, setItem, hi]
      · simp [transferEth, setNftOwner, setItem]

/-- The invariant every reachable contract state satisfies: ids 1..tokenIds
hold the ever-created records (with their own id stored in the record and a
nonzero owner), ids outside that range are untouched storage, the ERC721
ownership mapping agrees with the record owner field, the sold flag is
false exactly while the contract itself holds the item, sold records have
their seller cleared, active records have a seller that is a nonzero
non-contract account, and itemsSold counts exactly the sold records. -/
structure Inv (s : State) : Prop where
  this_ne : s.thisAddr ≠ 0
  admin_ne : s.owner ≠ 0
  admin_ne_this : s.owner ≠ s.thisAddr
  tokId : ∀ id, 1 ≤ id → id ≤ s.tokenIds → (s.items id).tokenId = id
  owner_ne : ∀ id, 1 ≤ id → id ≤ s.tokenIds → (s.items id).owner ≠ 0
  nft_eq : ∀ id, 1 ≤ id → id ≤ s.tokenIds → s.nftOwner id = (s.items id).owner
  sold_iff : ∀ id, 1 ≤ id → id ≤ s.tokenIds →
    ((s.items id).sold = false ↔ (s.items id).owner = s.thisAddr)
  sold_seller : ∀ id, 1 ≤ id → id ≤ s.tokenIds →
    (s.items id).sold = true → (s.items id).seller = 0
  active_seller : ∀ id, 1 ≤ id → id ≤ s.tokenIds → (s.items id).sold = false →
    (s.items id).seller ≠ 0 ∧ (s.items id).seller ≠ s.thisAddr
  beyond_item : ∀ id, id = 0 ∨ s.tokenIds < id → s.items id = zeroItem
  beyond_nft : ∀ id, id = 0 ∨ s.tokenIds < id → s.nftOwner id = 0
  count_eq : s.itemsSold = soldCount s

lemma inv_init (thisAddr admin : Account) (h1 : thisAddr ≠ 0) (h2 : admin ≠ 0)
    (h3 : admin ≠ thisAddr) : Inv (initState thisAddr admin) := by
  refine ⟨h1, h2, h3, ?_, ?_, ?_, ?_, ?_, ?_, ?_, ?_, ?_⟩ <;>
    first
      | (intro id hi1 hi2; exact absurd hi2 (by simp [initState]; omega))
      | (intro id hi; rfl)
      | rfl

lemma inv_list {s : State} {uri : String} {price msgValue : Nat}
    {caller : Account} {id : Nat} {s' : State} (hInv : Inv s)
    (hcal : caller ≠ s.thisAddr)
    (h : createToken s uri price msgValue caller = .ok (id, s')) : Inv s' := by
  obtain ⟨hid, hc0, hp0, hv, hn0, hthis, hthis', hown', htok', hsold', hfee',
    hitem_new, hitem_old, hnft_new, hnft_old, htr'⟩ := createToken_ok h
  subst hid
  constructor
  case this_ne => rw [hthis']; exact hInv.this_ne
  case admin_ne => rw [hown']; exact hInv.admin_ne
  case admin_ne_this => rw [hown', hthis']; exact hInv.admin_ne_this
  case tokId =>
    intro i hi1 hi2
    rw [htok'] at hi2
    by_cases hne : i = s.tokenIds + 1
    · subst hne; rw [hitem_new]
    · rw [hitem_old i hne]; exact hInv.tokId i hi1 (by omega)
  case owner_ne =>
    intro i hi1 hi2
    rw [htok'] at hi2
    by_cases hne : i = s.tokenIds + 1
    · subst hne; rw [hitem_new]; exact hInv.this_ne
    · rw [hitem_old i hne]; exact hInv.owner_ne i hi1 (by omega)
  case nft_eq =>
    intro i hi1 hi2
    rw [htok'] at hi2
    by_cases hne : i = s.tokenIds + 1
    · subst hne; rw [hitem_new, hnft_new]
    · rw [hitem_old i hne, hnft_old i hne]; exact hInv.nft_eq i hi1 (by omega)
  case sold_iff =>
    intro i hi1 hi2
    rw [htok'] at hi2
    by_cases hne : i = s.tokenIds + 1
    · subst hne; rw [hitem_new, hthis']; simp
    · rw [hitem_old i hne, hthis']; exact hInv.sold_iff i hi1 (by omega)
  case sold_seller =>
    intro i hi1 hi2
    rw [htok'] at hi2
    by_cases hne : i = s.tokenIds + 1
    · subst hne; rw [hitem_new]; simp
    · rw [hitem_old i hne]; exact hInv.sold_seller i hi1 (by omega)
  case active_seller =>
    intro i hi1 hi2
    rw [htok'] at hi2
    by_cases hne : i = s.tokenIds + 1
    · subst hne; rw [hitem_new, hthis']; exact fun _ => ⟨hc0, hcal⟩
    · rw [hitem_old i hne, hthis']; exact hInv.active_seller i hi1 (by omega)
  case beyond_item =>
    intro i hi
    rw [htok'] at hi
    have hne : i ≠ s.tokenIds + 1 := by omega
    rw [hitem_old i hne]
    exact hInv.beyond_item i (by omega)
  case beyond_nft =>
    intro i hi
    rw [htok'] at hi
    have hne : i ≠ s.tokenIds + 1 := by omega
    rw [hnft_old i hne]
    exact hInv.beyond_nft i (by omega)
  case count_eq =>
    rw [hsold']
    unfold soldCount
    rw [htok', idsUpTo_succ, List.countP_append]
    have h1 : (idsUpTo s.tokenIds).countP (fun i => (s'.items i).sold)
        = (idsUpTo s.tokenIds).countP (fun i => (s.items i).sold) := by
      apply countP_congr_on
      intro i hi
      have := mem_idsUpTo.mp hi
      rw [hitem_old i (by omega)]
    have h2 : ([s.tokenIds + 1].countP (fun i => (s'.items i).sold)) = 0 := by
      simp [List.countP_cons, hitem_new]
    have hc := hInv.count_eq
    simp only [soldCount] at hc
    rw [h1, h2, hc]
    omega

/-- A nonzero ERC721 owner means the id is within the allocated range. -/
lemma inRange_of_nftOwner {s : State} (hInv : Inv s) {id : Nat}
    (h : s.nftOwner id ≠ 0) : 1 ≤ id ∧ id ≤ s.tokenIds := by
  by_contra hcon
  exact h (hInv.beyond_nft id (by omega))

lemma inv_sale {s : State} {tokenId msgValue : Nat} {caller : Account}
    {s' : State} (hInv : Inv s) (hcal : caller ≠ s.thisAddr)
    (h : createMarketSale s tokenId msgValue caller = .ok s') : Inv s' := by
  obtain ⟨hv, hnft, hthis0, hc0, hthis', hown', htok', hsold', hfee',
    hitem_new, hitem_old, hnft_new, hnft_old, htr'⟩ := createMarketSale_ok h
  have hrange : 1 ≤ tokenId ∧ tokenId ≤ s.tokenIds :=
    inRange_of_nftOwner hInv (by rw [hnft]; exact hInv.this_ne)
  have howner : (s.items tokenId).owner = s.thisAddr := by
    rw [← hInv.nft_eq tokenId hrange.1 hrange.2, hnft]
  have hsold_old : (s.items tokenId).sold = false :=
    (hInv.sold_iff tokenId hrange.1 hrange.2).mpr howner
  constructor
  case this_ne => rw [hthis']; exact hInv.this_ne
  case admin_ne => rw [hown']; exact hInv.admin_ne
  case admin_ne_this => rw [hown', hthis']; exact hInv.admin_ne_this
  case tokId =>
    intro i hi1 hi2
    rw [htok'] at hi2
    by_cases hne : i = tokenId
    · subst hne; rw [hitem_new]; exact hInv.tokId i hi1 hi2
    · rw [hitem_old i hne]; exact hInv.tokId i hi1 hi2
  case owner_ne =>
    intro i hi1 hi2
    rw [htok'] at hi2
    by_cases hne : i = tokenId
    · subst hne; rw [hitem_new]; exact hc0
    · rw [hitem_old i hne]; exact hInv.owner_ne i hi1 hi2
  case nft_eq =>
    intro i hi1 hi2
    rw [htok'] at hi2
    by_cases hne : i = tokenId
    · subst hne; rw [hitem_new, hnft_new]
    · rw [hitem_old i hne, hnft_old i hne]; exact hInv.nft_eq i hi1 hi2
  case sold_iff =>
    intro i hi1 hi2
    rw [htok'] at hi2
    by_cases hne : i = tokenId
    · subst hne; rw [hitem_new, hthis']; simp [hcal]
    · rw [hitem_old i hne, hthis']; exact hInv.sold_iff i hi1 hi2
  case sold_seller =>
    intro i hi1 hi2
    rw [htok'] at hi2
    by_cases hne : i = tokenId
    · subst hne; rw [hitem_new]; simp
    · rw [hitem_old i hne]; exact hInv.sold_seller i hi1 hi2
  case active_seller =>
    intro i hi1 hi2
    rw [htok'] at hi2
    by_cases hne : i = tokenId
    · subst hne; rw [hitem_new]; simp
    · rw [hitem_old i hne, hthis']; exact hInv.active_seller i hi1 hi2
  case beyond_item =>
    intro i hi
    rw [htok'] at hi
    have hne : i ≠ tokenId := by omega
    rw [hitem_old i hne]
    exact hInv.beyond_item i hi
  case beyond_nft =>
    intro i hi
    rw [htok'] at hi
    have hne : i ≠ tokenId := by omega
    rw [hnft_old i hne]
    exact hInv.beyond_nft i hi
  case count_eq =>
    have hflip := countP_flip hrange.1 hrange.2
      (fun i => (s.items i).sold) (fun i => (s'.items i).sold)
      (fun i hi => by
        show (s'.items i).sold = (s.items i).sold
        rw [hitem_old i hi])
    simp [hsold_old, hitem_new] at hflip
    have hc := hInv.count_eq
    simp only [soldCount] at hc ⊢
    rw [hsold', htok', hc]
    omega

lemma inv_resell {s : State} {tokenId price msgValue : Nat} {caller : Account}
    {s' : State} (hInv : Inv s) (hcal : caller ≠ s.thisAddr)
    (h : resellToken s tokenId price msgValue caller = .ok s') : Inv s' := by
  obtain ⟨how, hv, hns0, hnft, hc0, hthis0, hthis', hown', htok', hsold', hfee',
    hitem_new, hitem_old, hnft_new, hnft_old, htr'⟩ := resellToken_ok h
  have hrange : 1 ≤ tokenId ∧ tokenId ≤ s.tokenIds :=
    inRange_of_nftOwner hInv (by rw [hnft]; exact hc0)
  have hsold_old : (s.items tokenId).sold = true := by
    rcases Bool.eq_false_or_eq_true (s.items tokenId).sold with ht | hf
    · exact ht
    · exact absurd (how ▸ (hInv.sold_iff tokenId hrange.1 hrange.2).mp hf) hcal
  constructor
  case this_ne => rw [hthis']; exact hInv.this_ne
  case admin_ne => rw [hown']; exact hInv.admin_ne
  case admin_ne_this => rw [hown', hthis']; exact hInv.admin_ne_this
  case tokId =>
    intro i hi1 hi2
    rw [htok'] at hi2
    by_cases hne : i = tokenId
    · subst hne; rw [hitem_new]; exact hInv.tokId i hi1 hi2
    · rw [hitem_old i hne]; exact hInv.tokId i hi1 hi2
  case owner_ne =>
    intro i hi1 hi2
    rw [htok'] at hi2
    by_cases hne : i = tokenId
    · subst hne; rw [hitem_new]; exact hInv.this_ne
    · rw [hitem_old i hne]; exact hInv.owner_ne i hi1 hi2
  case nft_eq =>
    intro i hi1 hi2
    rw [htok'] at hi2
    by_cases hne : i = tokenId
    · subst hne; rw [hitem_new, hnft_new]
    · rw [hitem_old i hne, hnft_old i hne]; exact hInv.nft_eq i hi1 hi2
  case sold_iff =>
    intro i hi1 hi2
    rw [htok'] at hi2
    by_cases hne : i = tokenId
    · subst hne; rw [hitem_new, hthis']; simp
    · rw [hitem_old i hne, hthis']; exact hInv.sold_iff i hi1 hi2
  case sold_seller =>
    intro i hi1 hi2
    rw [htok'] at hi2
    by_cases hne : i = tokenId
    · subst hne; rw [hitem_new]; simp
    · rw [hitem_old i hne]; exact hInv.sold_seller i hi1 hi2
  case active_seller =>
    intro i hi1 hi2
    rw [htok'] at hi2
    by_cases hne : i = tokenId
    · subst hne; rw [hitem_new, hthis']; exact fun _ => ⟨hc0, hcal⟩
    · rw [hitem_old i hne, hthis']; exact hInv.active_seller i hi1 hi2
  case beyond_item =>
    intro i hi
    rw [htok'] at hi
    have hne : i ≠ tokenId := by omega
    rw [hitem_old i hne]
    exact hInv.beyond_item i hi
  case beyond_nft =>
    intro i hi
    rw [htok'] at hi
    have hne : i ≠ tokenId := by omega
    rw [hnft_old i hne]
    exact hInv.beyond_nft i hi
  case count_eq =>
    have hflip := countP_flip hrange.1 hrange.2
      (fun i => (s.items i).sold) (fun i => (s'.items i).sold)
      (fun i hi => by
        show (s'.items i).sold = (s.items i).sold
        rw [hitem_old i hi])
    simp [hsold_old, hitem_new] at hflip
    have hc := hInv.count_eq
    simp only [soldCount] at hc ⊢
    rw [hsold', htok', hc]
    omega

lemma inv_cancel {s : State} {tokenId : Nat} {caller : Account}
    {s' : State} (hInv : Inv s) (hcal : caller ≠ s.thisAddr)
    (h : cancelItemListing s tokenId caller = .ok s') : Inv s' := by
  obtain ⟨hsel, hsold_old, hnft, hc0, hthis0, hthis', hown', htok', hsold',
    hfee', hitem_new, hitem_old, hnft_new, hnft_old, htr'⟩ :=
    cancelItemListing_ok h
  have hrange : 1 ≤ tokenId ∧ tokenId ≤ s.tokenIds :=
    inRange_of_nftOwner hInv (by rw [hnft]; exact hInv.this_ne)
  constructor
  case this_ne => rw [hthis']; exact hInv.this_ne
  case admin_ne => rw [hown']; exact hInv.admin_ne
  case admin_ne_this => rw [hown', hthis']; exact hInv.admin_ne_this
  case tokId =>
    intro i hi1 hi2
    rw [htok'] at hi2
    by_cases hne : i = tokenId
    · subst hne; rw [hitem_new]; exact hInv.tokId i hi1 hi2
    · rw [hitem_old i hne]; exact hInv.tokId i hi1 hi2
  case owner_ne =>
    intro i hi1 hi2
    rw [htok'] at hi2
    by_cases hne : i = tokenId
    · subst hne; rw [hitem_new]; exact hc0
    · rw [hitem_old i hne]; exact hInv.owner_ne i hi1 hi2
  case nft_eq =>
    intro i hi1 hi2
    rw [htok'] at hi2
    by_cases hne : i = tokenId
    · subst hne; rw [hitem_new, hnft_new]
    · rw [hitem_old i hne, hnft_old i hne]; exact hInv.nft_eq i hi1 hi2
  case sold_iff =>
    intro i hi1 hi2
    rw [htok'] at hi2
    by_cases hne : i = tokenId
    · subst hne; rw [hitem_new, hthis']; simp [hcal]
    · rw [hitem_old i hne, hthis']; exact hInv.sold_iff i hi1 hi2
  case sold_seller =>
    intro i hi1 hi2
    rw [htok'] at hi2
    by_cases hne : i = tokenId
    · subst hne; rw [hitem_new]; simp
    · rw [hitem_old i hne]; exact hInv.sold_seller i hi1 hi2
  case active_seller =>
    intro i hi1 hi2
    rw [htok'] at hi2
    by_cases hne : i = tokenId
    · subst hne; rw [hitem_new]; simp
    · rw [hitem_old i hne, hthis']; exact hInv.active_seller i hi1 hi2
  case beyond_item =>
    intro i hi
    rw [htok'] at hi
    have hne : i ≠ tokenId := by omega
    rw [hitem_old i hne]
    exact hInv.beyond_item i hi
  case beyond_nft =>
    intro i hi
    rw [htok'] at hi
    have hne : i ≠ tokenId := by omega
    rw [hnft_old i hne]
    exact hInv.beyond_nft i hi
  case count_eq =>
    have hflip := countP_flip hrange.1 hrange.2
      (fun i => (s.items i).sold) (fun i => (s'.items i).sold)
      (fun i hi => by
        show (s'.items i).sold = (s.items i).sold
        rw [hitem_old i hi])
    simp [hsold_old, hitem_new] at hflip
    have hc := hInv.count_eq
    simp only [soldCount] at hc ⊢
    rw [hsold', htok', hc]
    omega

lemma inv_setFee {s : State} {p : Nat} {caller : Account} {s' : State}
    (hInv : Inv s) (h : updateListingPrice s p caller = .ok s') : Inv s' := by
  obtain ⟨hc, hs'⟩ := updateListingPrice_ok h
  subst hs'
  exact ⟨hInv.this_ne, hInv.admin_ne, hInv.admin_ne_this, hInv.tokId,
    hInv.owner_ne, hInv.nft_eq, hInv.sold_iff, hInv.sold_seller,
    hInv.active_seller, hInv.beyond_item, hInv.beyond_nft, hInv.count_eq⟩

lemma step_inv {s s' : State} (hInv : Inv s) (h : Step s s') : Inv s' := by
  cases h <;> rename_i hEOA hop
  case list => exact inv_list hInv hEOA.2 hop
  case sale => exact inv_sale hInv hEOA.2 hop
  case resell => exact inv_resell hInv hEOA.2 hop
  case cancel => exact inv_cancel hInv hEOA.2 hop
  case setFee => exact inv_setFee hInv hop

/-- Every reachable state satisfies the invariant. -/
lemma reachable_inv {s : State} (h : Reachable s) : Inv s := by
  induction h with
  | init thisAddr admin h1 h2 h3 => exact inv_init thisAddr admin h1 h2 h3
  | step s s' hr hstep ih => exact step_inv ih hstep

lemma createToken_run {s : State} (uri : String) {price msgValue : Nat}
    {caller : Account} (hp : price ≠ 0) (hv : msgValue = s.listingPrice)
    (hc : caller ≠ 0) (hnft : s.nftOwner (s.tokenIds + 1) = 0)
    (hthis : s.thisAddr ≠ 0) :
    ∃ s', createToken s uri price msgValue caller = .ok (s.tokenIds + 1, s') := by
  rcases hE : createToken s uri price msgValue caller with e | ⟨id, s1⟩
  · exfalso
    unfold createToken erc721Mint setTokenURI createMarketItem erc721Transfer at hE
    dsimp only at hE
    simp [setNftOwner, setItem, hp, hv, hc, hnft, hthis] at hE
  · have hid := (createToken_ok hE).1
    subst hid
    exact ⟨s1, rfl⟩

lemma createMarketSale_run {s : State} {tokenId msgValue : Nat} {caller : Account}
    (hv : msgValue = (s.items tokenId).price)
    (hnft : s.nftOwner tokenId = s.thisAddr) (hthis : s.thisAddr ≠ 0)
    (hc : caller ≠ 0) :
    ∃ s', createMarketSale s tokenId msgValue caller = .ok s' := by
  rcases hE : createMarketSale s tokenId msgValue caller with e | s1
  · exfalso
    unfold createMarketSale erc721Transfer at hE
    dsimp only at hE
    simp [setNftOwner, setItem, hv, hnft, hthis, hc] at hE
  · exact ⟨s1, rfl⟩

lemma resellToken_run {s : State} {tokenId : Nat} (price : Nat)
    {msgValue : Nat} {caller : Account}
    (how : (s.items tokenId).owner = caller) (hv : msgValue = s.listingPrice)
    (hsold : s.itemsSold ≠ 0) (hnft : s.nftOwner tokenId = caller)
    (hc : caller ≠ 0) (hthis : s.thisAddr ≠ 0) :
    ∃ s', resellToken s tokenId price msgValue caller = .ok s' := by
  rcases hE : resellToken s tokenId price msgValue caller with e | s1
  · exfalso
    unfold resellToken erc721Transfer at hE
    dsimp only at hE
    simp [setNftOwner, setItem, how, hv, hsold, hnft, hc, hthis] at hE
  · exact ⟨s1, rfl⟩

lemma cancelItemListing_run {s : State} {tokenId : Nat} {caller : Account}
    (hsel : (s.items tokenId).seller = caller)
    (hsold : (s.items tokenId).sold = false)
    (hnft : s.nftOwner tokenId = s.thisAddr) (hthis : s.thisAddr ≠ 0)
    (hc : caller ≠ 0) :
    ∃ s', cancelItemListing s tokenId caller = .ok s' := by
  rcases hE : cancelItemListing s tokenId caller with e | s1
  · exfalso
    unfold cancelItemListing erc721Transfer at hE
    dsimp only at hE
    simp [transferEth, setNftOwner, setItem, hsel, hsold, hnft, hthis, hc] at hE
  · exact ⟨s1, rfl⟩

/-- Purchasing an id that was never allocated: the absent record reads as
the zero struct, so a nonzero payment trips the payment require, while a
zero payment passes it and then dies inside the ERC721 transfer because
the token was never minted. -/
lemma sale_error_missing {s : State} (hInv : Inv s) {id v : Nat} {c : Account}
    (hid : id = 0 ∨ s.tokenIds < id) :
    createMarketSale s id v c
      = .error (if v = 0 then .ERC721NonexistentToken else .InvalidPayment) := by
  have hz := hInv.beyond_item id hid
  have hnz := hInv.beyond_nft id hid
  unfold createMarketSale erc721Transfer
  dsimp only
  rw [hz]
  by_cases hv : v = 0
  · subst hv
    simp [zeroItem, setItem, setNftOwner, hnz]
  · simp [zeroItem, setItem, setNftOwner, hv]

/-- Purchasing a record that is flagged sold: with the exact stored price
attached the payment require passes and the ERC721 transfer fails with the
incorrect-owner revert (the contract no longer holds the token); any other
payment trips the payment require. In no case is a dedicated already-sold
error raised. -/
lemma sale_error_sold {s : State} (hInv : Inv s) {id v : Nat} {c : Account}
    (h1 : 1 ≤ id) (h2 : id ≤ s.tokenIds) (hsold : (s.items id).sold = true) :
    createMarketSale s id v c
      = .error (if v = (s.items id).price then .ERC721IncorrectOwner
                else .InvalidPayment) := by
  have how : (s.items id).owner ≠ s.thisAddr := by
    intro hcontra
    have hfalse := (hInv.sold_iff id h1 h2).mpr hcontra
    rw [hsold] at hfalse
    cases hfalse
  have hnft := hInv.nft_eq id h1 h2
  have hnz := hInv.owner_ne id h1 h2
  unfold createMarketSale erc721Transfer
  dsimp only
  by_cases hv : v = (s.items id).price
  · simp [setItem, setNftOwner, hv, hnft, hnz, how]
  · simp [setItem, setNftOwner, hv]

/-- Any scan of ids 1..tokenIds that keeps a sublist and reads the stored
records returns them in strictly increasing tokenId order, each with its
id in range. -/
lemma scan_tokenIds_sorted {s : State} (hInv : Inv s) (p : Nat → Bool) :
    ((((idsUpTo s.tokenIds).filter p).map s.items).map MarketItem.tokenId).Pairwise
        (· < ·) ∧
      ∀ r ∈ ((idsUpTo s.tokenIds).filter p).map s.items,
        1 ≤ r.tokenId ∧ r.tokenId ≤ s.tokenIds := by
  have hids : (idsUpTo s.tokenIds).Pairwise (· < ·) := by
    unfold idsUpTo
    exact List.Pairwise.map _ (fun a b h => by omega)
      (List.pairwise_lt_range s.tokenIds)
  have hfil : ((idsUpTo s.tokenIds).filter p).Pairwise (· < ·) :=
    List.Pairwise.filter p hids
  constructor
  · rw [List.map_map, List.pairwise_map]
    refine List.Pairwise.imp_of_mem ?_ hfil
    intro a b ha hb hab
    have ha2 := mem_idsUpTo.mp (List.mem_filter.mp ha).1
    have hb2 := mem_idsUpTo.mp (List.mem_filter.mp hb).1
    simp only [Function.comp]
    rw [hInv.tokId a ha2.1 ha2.2, hInv.tokId b hb2.1 hb2.2]
    exact hab
  · intro r hr
    obtain ⟨i, hi, rfl⟩ := List.mem_map.mp hr
    have hi2 := mem_idsUpTo.mp (List.mem_filter.mp hi).1
    rw [hInv.tokId i hi2.1 hi2.2]
    exact hi2

/-- A concrete deployment: contract address 1, deployer (administrator) 2. -/
def exS0 : State := initState 1 2

/-- State after account 2 lists token 1 with URI "uri" at price 5. -/
def exS1 : State :=
  match createToken exS0 "uri" 5 initialListingPrice 2 with
  | .ok (_, s) => s
  | .error _ => exS0

/-- State after account 3 buys token 1 for 5. -/
def exS2 : State :=
  match createMarketSale exS1 1 5 3 with
  | .ok s => s
  | .error _ => exS1

/-- State after account 3 resells token 1 at price 0 (accepted!). -/
def exS3 : State :=
  match resellToken exS2 1 0 initialListingPrice 3 with
  | .ok s => s
  | .error _ => exS2

lemma createToken_exS0 : createToken exS0 "uri" 5 initialListingPrice 2 = .ok (1, exS1) :=
  rfl

lemma sale_exS1 : createMarketSale exS1 1 5 3 = .ok exS2 := rfl

lemma resell_exS2 : resellToken exS2 1 0 initialListingPrice 3 = .ok exS3 := rfl

lemma reach_exS0 : Reachable exS0 :=
  Reachable.init 1 2 (by decide) (by decide) (by decide)

lemma reach_exS1 : Reachable exS1 :=
  Reachable.step exS0 exS1 reach_exS0
    (Step.list exS0 "uri" 5 initialListingPrice 2 1 exS1
      ⟨by decide, by decide⟩ createToken_exS0)

lemma reach_exS2 : Reachable exS2 :=
  Reachable.step exS1 exS2 reach_exS1
    (Step.sale exS1 1 5 3 exS2 ⟨by decide, by decide⟩ sale_exS1)

lemma reach_exS3 : Reachable exS3 :=
  Reachable.step exS2 exS3 reach_exS2
    (Step.resell exS2 1 0 initialListingPrice 3 exS3
      ⟨by decide, by decide⟩ resell_exS2)

lemma countP_not_add (l : List Nat) (p : Nat → Bool) :
    l.countP (fun a => !p a) + l.countP p = l.length := by
  induction l with
  | nil => rfl
  | cons a t ih =>
      simp only [List.countP_cons, List.length_cons]
      cases p a <;> simp <;> omega

/-- C3: a successful purchase of an existing active record makes the caller
the record owner, flags it sold, clears the seller, increments the
sold-items counter, and performs exactly two currency transfers: the
listing fee to the administrator (out of the funds retained at listing
time) and the full attached payment to the prior seller. -/
theorem claim3_purchase_effects (s : State) (id v : Nat) (c : Account)
    (s' : State) (hreach : Reachable s) (h1 : 1 ≤ id) (h2 : id ≤ s.tokenIds)
    (hactive : (s.items id).sold = false)
    (hok : createMarketSale s id v c = .ok s') :
    (s'.items id).owner = c ∧ (s'.items id).sold = true ∧
      (s'.items id).seller = 0 ∧ s'.itemsSold = s.itemsSold + 1 ∧
      s'.transfers = s.transfers
        ++ [(s.owner, s.listingPrice), ((s.items id).seller, v)] := by
  obtain ⟨hv, hnft, hthis0, hc0, hthis', hown', htok', hsold', hfee',
    hitem_new, hitem_old, hnft_new, hnft_old, htr'⟩ := createMarketSale_ok hok
  exact ⟨by rw [hitem_new], by rw [hitem_new], by rw [hitem_new], hsold', htr'⟩

theorem claim3_witness :
    (exS2.items 1).owner = 3 ∧ (exS2.items 1).sold = true ∧
      (exS2.items 1).seller = 0 ∧ exS2.itemsSold = exS1.itemsSold + 1 ∧
      exS2.transfers = exS1.transfers
        ++ [(exS1.owner, exS1.listingPrice), ((exS1.items 1).seller, 5)] :=
  claim3_purchase_effects exS1 1 5 3 exS2 reach_exS1 (by decide) (by decide)
    rfl sale_exS1

/-- C4: in every reachable state the preallocated active-listings count
tokenIds - itemsSold equals the number of stored records with the sold
flag false, which is also the number of records fetchMarketItems
returns. -/
theorem claim4_active_count (s : State) (hreach : Reachable s) :
    unsoldItemCount s
        = (idsUpTo s.tokenIds).countP (fun id => !(s.items id).sold) ∧
      (fetchMarketItems s).length = unsoldItemCount s := by
  have hInv := reachable_inv hreach
  have hadd := countP_not_add (idsUpTo s.tokenIds) (fun id => (s.items id).sold)
  have hlen := length_idsUpTo s.tokenIds
  have hc := hInv.count_eq
  simp only [soldCount] at hc
  have h1 : unsoldItemCount s
      = (idsUpTo s.tokenIds).countP (fun id => !(s.items id).sold) := by
    simp only [unsoldItemCount]
    omega
  refine ⟨h1, ?_⟩
  have h2 : (fetchMarketItems s).length
      = (idsUpTo s.tokenIds).countP (fun id => (s.items id).owner == s.thisAddr) := by
    simp only [fetchMarketItems, List.length_map]
    rw [List.countP_eq_length_filter]
  have h3 : (idsUpTo s.tokenIds).countP (fun id => (s.items id).owner == s.thisAddr)
      = (idsUpTo s.tokenIds).countP (fun id => !(s.items id).sold) := by
    apply countP_congr_on
    intro i hi
    obtain ⟨hi1, hi2⟩ := mem_idsUpTo.mp hi
    by_cases ho : (s.items i).owner = s.thisAddr
    · have hs := (hInv.sold_iff i hi1 hi2).mpr ho
      simp [ho, hs]
    · have hs : (s.items i).sold = true := by
        rcases Bool.eq_false_or_eq_true (s.items i).sold with ht | hf
        · exact ht
        · exact absurd ((hInv.sold_iff i hi1 hi2).mp hf) ho
      simp [ho, hs]
  rw [h2, h3, h1]

theorem claim4_witness :
    unsoldItemCount exS2
        = (idsUpTo exS2.tokenIds).countP (fun id => !(exS2.items id).sold) ∧
      (fetchMarketItems exS2).length = unsoldItemCount exS2 :=
  claim4_active_count exS2 reach_exS2

/-- C5: in every reachable state (and reverted calls leave the state
unchanged, so this covers the state after every attempted operation) the
sold-items counter never exceeds the number of identifiers ever
allocated. -/
theorem claim5_removed_le_allocated (s : State) (hreach : Reachable s) :
    s.itemsSold ≤ s.tokenIds := by
  have hInv := reachable_inv hreach
  rw [hInv.count_eq]
  calc soldCount s ≤ (idsUpTo s.tokenIds).length := List.countP_le_length _
    _ = s.tokenIds := length_idsUpTo _

theorem claim5_witness : exS2.itemsSold ≤ exS2.tokenIds :=
  claim5_removed_le_allocated exS2 reach_exS2

/-- C8: every record the listed-by-caller query returns for a nonzero
caller has that caller as seller and is an active (unsold) listing, since
both purchase and cancel clear the seller field to the zero address. -/
theorem claim8_listed_by_caller (s : State) (c : Account)
    (hreach : Reachable s) (hc : c ≠ 0) :
    ∀ r ∈ fetchItemsListed s c, r.seller = c ∧ r.sold = false := by
  have hInv := reachable_inv hreach
  intro r hr
  simp only [fetchItemsListed] at hr
  obtain ⟨i, hi, rfl⟩ := List.mem_map.mp hr
  obtain ⟨him, hpred⟩ := List.mem_filter.mp hi
  obtain ⟨hi1, hi2⟩ := mem_idsUpTo.mp him
  have hsel : (s.items i).seller = c := by simpa using hpred
  refine ⟨hsel, ?_⟩
  rcases Bool.eq_false_or_eq_true (s.items i).sold with ht | hf
  · exact absurd (hsel.symm.trans (hInv.sold_seller i hi1 hi2 ht)) hc
  · exact hf

theorem claim8_witness : (exS1.items 1).seller = 2 ∧ (exS1.items 1).sold = false :=
  claim8_listed_by_caller exS1 2 reach_exS1 (by decide) (exS1.items 1) (by decide)

/-- C9: only the contract owner fixed at deployment can call
updateListingPrice successfully (and it then stores the new fee); every
other caller gets the Forbidden revert; and no other state-changing entry
point ever modifies the listing fee or the administrator account. -/
theorem claim9_fee_admin_only :
    (∀ s f, ∃ s', updateListingPrice s f s.owner = .ok s' ∧
        s'.listingPrice = f ∧ s'.owner = s.owner) ∧
    (∀ s f c, c ≠ s.owner → updateListingPrice s f c = .error .Forbidden) ∧
    (∀ s uri p v c id s', createToken s uri p v c = .ok (id, s') →
        s'.listingPrice = s.listingPrice ∧ s'.owner = s.owner) ∧
    (∀ s id v c s', createMarketSale s id v c = .ok s' →
        s'.listingPrice = s.listingPrice ∧ s'.owner = s.owner) ∧
    (∀ s id p v c s', resellToken s id p v c = .ok s' →
        s'.listingPrice = s.listingPrice ∧ s'.owner = s.owner) ∧
    (∀ s id c s', cancelItemListing s id c = .ok s' →
        s'.listingPrice = s.listingPrice ∧ s'.owner = s.owner) := by
  refine ⟨?_, ?_, ?_, ?_, ?_, ?_⟩
  · intro s f
    refine ⟨{ s with listingPrice := f }, ?_, rfl, rfl⟩
    unfold updateListingPrice
    rw [if_pos rfl]
  · intro s f c hc
    unfold updateListingPrice
    rw [if_neg (fun h => hc h.symm)]
  · intro s uri p v c id s' h
    obtain ⟨_, _, _, _, _, _, _, hown', _, _, hfee', _, _, _, _, _⟩ :=
      createToken_ok h
    exact ⟨hfee', hown'⟩
  · intro s id v c s' h
    obtain ⟨_, _, _, _, _, hown', _, _, hfee', _, _, _, _, _⟩ :=
      createMarketSale_ok h
    exact ⟨hfee', hown'⟩
  · intro s id p v c s' h
    obtain ⟨_, _, _, _, _, _, _, hown', _, _, hfee', _, _, _, _, _⟩ :=
      resellToken_ok h
    exact ⟨hfee', hown'⟩
  · intro s id c s' h
    obtain ⟨_, _, _, _, _, _, hown', _, _, hfee', _, _, _, _, _⟩ :=
      cancelItemListing_ok h
    exact ⟨hfee', hown'⟩

theorem claim9_witness :
    (∃ s', updateListingPrice exS0 42 exS0.owner = .ok s' ∧
        s'.listingPrice = 42 ∧ s'.owner = exS0.owner) ∧
      updateListingPrice exS0 42 3 = .error .Forbidden ∧
      exS1.listingPrice = exS0.listingPrice :=
  ⟨claim9_fee_admin_only.1 exS0 42,
   claim9_fee_admin_only.2.1 exS0 42 3 (by decide),
   (claim9_fee_admin_only.2.2.1 exS0 "uri" 5 initialListingPrice 2 1 exS1
      createToken_exS0).1⟩

/-- C10: in every reachable state each of the three queries scans ids 1 to
tokenIds upward and returns its matching records in strictly increasing
tokenId order, with every returned tokenId inside the allocated range. -/
theorem claim10_queries_sorted (s : State) (c : Account)
    (hreach : Reachable s) :
    ((fetchMarketItems s).map MarketItem.tokenId).Pairwise (· < ·) ∧
    ((fetchMyNFTs s c).map MarketItem.tokenId).Pairwise (· < ·) ∧
    ((fetchItemsListed s c).map MarketItem.tokenId).Pairwise (· < ·) ∧
    (∀ r ∈ fetchMarketItems s, 1 ≤ r.tokenId ∧ r.tokenId ≤ s.tokenIds) ∧
    (∀ r ∈ fetchMyNFTs s c, 1 ≤ r.tokenId ∧ r.tokenId ≤ s.tokenIds) ∧
    (∀ r ∈ fetchItemsListed s c, 1 ≤ r.tokenId ∧ r.tokenId ≤ s.tokenIds) := by
  have hInv := reachable_inv hreach
  obtain ⟨hm1, hm2⟩ := scan_tokenIds_sorted hInv
    (fun id => (s.items id).owner == s.thisAddr)
  obtain ⟨ho1, ho2⟩ := scan_tokenIds_sorted hInv
    (fun id => (s.items id).owner == c)
  obtain ⟨hl1, hl2⟩ := scan_tokenIds_sorted hInv
    (fun id => (s.items id).seller == c)
  exact ⟨hm1, ho1, hl1, hm2, ho2, hl2⟩

theorem claim10_witness :
    ((fetchMarketItems exS2).map MarketItem.tokenId).Pairwise (· < ·) :=
  (claim10_queries_sorted exS2 3 reach_exS2).1

/-- C1 (amended): purchase has no dedicated NotFound or AlreadySold
checks. For a never-allocated id the absent record reads as the zero
struct, so a nonzero payment fails the payment require (InvalidPayment)
and a zero payment fails inside the ERC721 transfer with the
nonexistent-token revert. For a sold record, attaching the exact stored
price passes the payment require and the call then fails with the ERC721
incorrect-owner revert, because the contract no longer holds the token;
any other payment fails with InvalidPayment. In particular a second
purchase after a successful first always fails, with the incorrect-owner
revert or InvalidPayment, never with a dedicated already-sold error. -/
theorem claim1_purchase_failure_modes :
    (∀ s id v c, Reachable s → (id = 0 ∨ s.tokenIds < id) →
        createMarketSale s id v c
          = .error (if v = 0 then .ERC721NonexistentToken
                    else .InvalidPayment)) ∧
    (∀ s id v c, Reachable s → 1 ≤ id → id ≤ s.tokenIds →
        (s.items id).sold = true →
        createMarketSale s id v c
          = .error (if v = (s.items id).price then .ERC721IncorrectOwner
                    else .InvalidPayment)) ∧
    (∀ s id v c s' v2 c2, Reachable s → c ≠ 0 → c ≠ s.thisAddr →
        createMarketSale s id v c = .ok s' →
        createMarketSale s' id v2 c2
          = .error (if v2 = (s'.items id).price then .ERC721IncorrectOwner
                    else .InvalidPayment)) := by
  have hb : ∀ s id v c, Reachable s → 1 ≤ id → id ≤ s.tokenIds →
      (s.items id).sold = true →
      createMarketSale s id v c
        = .error (if v = (s.items id).price then .ERC721IncorrectOwner
                  else .InvalidPayment) := by
    intro s id v c hreach h1 h2 hsold
    exact sale_error_sold (reachable_inv hreach) h1 h2 hsold
  refine ⟨?_, hb, ?_⟩
  · intro s id v c hreach hid
    exact sale_error_missing (reachable_inv hreach) hid
  · intro s id v c s' v2 c2 hreach hc0 hcthis hok
    have hreach' : Reachable s' :=
      Reachable.step s s' hreach (Step.sale s id v c s' ⟨hc0, hcthis⟩ hok)
    obtain ⟨hv, hnft, hthis0, hc0', hthis', hown', htok', hsold', hfee',
      hitem_new, hitem_old, hnft_new, hnft_old, htr'⟩ := createMarketSale_ok hok
    have hrange : 1 ≤ id ∧ id ≤ s.tokenIds :=
      inRange_of_nftOwner (reachable_inv hreach) (by rw [hnft]; exact hthis0)
    have hsold2 : (s'.items id).sold = true := by rw [hitem_new]
    have hr2 : id ≤ s'.tokenIds := by
      have := hrange.2
      omega
    exact hb s' id v2 c2 hreach' hrange.1 hr2 hsold2

/-- C1 counterexample trace: in the fresh state a purchase of the
unallocated id 1 with payment 5 fails with InvalidPayment, not a
NotFound error; and after a successful listing and first purchase, the
second purchase of the sold item at the exact price fails with the ERC721
incorrect-owner revert, not with an already-sold error. -/
theorem claim1_counterexample :
    createMarketSale exS0 1 5 3 = .error .InvalidPayment ∧
      (exS2.items 1).sold = true ∧
      createMarketSale exS2 1 5 4 = .error .ERC721IncorrectOwner ∧
      MarketErr.ERC721IncorrectOwner ≠ MarketErr.AlreadySold :=
  ⟨rfl, rfl, rfl, by decide⟩

theorem claim1_witness :
    createMarketSale exS0 1 7 3
        = .error (if 7 = 0 then MarketErr.ERC721NonexistentToken
                  else MarketErr.InvalidPayment) ∧
      createMarketSale exS2 1 9 4
        = .error (if 9 = (exS2.items 1).price then MarketErr.ERC721IncorrectOwner
                  else MarketErr.InvalidPayment) ∧
      createMarketSale exS2 1 5 4
        = .error (if 5 = (exS2.items 1).price then MarketErr.ERC721IncorrectOwner
                  else MarketErr.InvalidPayment) :=
  ⟨claim1_purchase_failure_modes.1 exS0 1 7 3 reach_exS0 (Or.inr (by decide)),
   claim1_purchase_failure_modes.2.1 exS2 1 9 4 reach_exS2 (by decide)
     (by decide) rfl,
   claim1_purchase_failure_modes.2.2 exS1 1 5 3 exS2 5 4 reach_exS1
     (by decide) (by decide) sale_exS1⟩

/-- C2 (amended): every record created by a successful listing has a
strictly positive price, enforced by the price require; but resell
performs no validation of the new price and rewrites the record with
exactly the caller-supplied value, so a resell can produce a record with
price zero. -/
theorem claim2_price_positive_amended :
    (∀ s uri price msgValue c id s',
        createToken s uri price msgValue c = .ok (id, s') →
        0 < (s'.items id).price) ∧
    (∀ s id price msgValue c s',
        resellToken s id price msgValue c = .ok s' →
        (s'.items id).price = price) := by
  constructor
  · intro s uri price msgValue c id s' h
    obtain ⟨_, _, hp0, _, _, _, _, _, _, _, _, hitem_new, _, _, _, _⟩ :=
      createToken_ok h
    rw [hitem_new]
    exact Nat.pos_of_ne_zero hp0
  · intro s id price msgValue c s' h
    obtain ⟨_, _, _, _, _, _, _, _, _, _, _, hitem_new, _, _, _, _⟩ :=
      resellToken_ok h
    rw [hitem_new]

/-- C2 counterexample trace: after listing token 1 at price 5 and selling
it, the buyer resells it at price 0; the call succeeds and the rewritten
record has price 0, violating the claimed positivity for records created
by resell. -/
theorem claim2_counterexample :
    resellToken exS2 1 0 initialListingPrice 3 = .ok exS3 ∧
      (exS3.items 1).price = 0 ∧ (exS3.items 1).sold = false :=
  ⟨rfl, rfl, rfl⟩

theorem claim2_witness :
    0 < (exS1.items 1).price ∧ (exS3.items 1).price = 0 :=
  ⟨claim2_price_positive_amended.1 exS0 "uri" 5 initialListingPrice 2 1 exS1
      createToken_exS0,
   claim2_price_positive_amended.2 exS2 1 0 initialListingPrice 3 exS3
      resell_exS2⟩

/-- C6: from any reachable state, for any URI, positive prices p and p2
and distinct nonzero non-contract accounts, listing at p with the exact
fee, purchasing at p, and reselling at p2 with the exact fee all succeed,
and the active-listings query of the final state contains the item with
its id and price p2. -/
theorem claim6_roundtrip (s : State) (uri : String) (p p2 : Nat)
    (seller buyer : Account) (hreach : Reachable s) (hp : 0 < p)
    (hp2 : 0 < p2) (hdist : seller ≠ buyer) (hs0 : seller ≠ 0)
    (hsthis : seller ≠ s.thisAddr) (hb0 : buyer ≠ 0)
    (hbthis : buyer ≠ s.thisAddr) :
    ∃ s1 s2 s3,
      createToken s uri p s.listingPrice seller = .ok (s.tokenIds + 1, s1) ∧
      createMarketSale s1 (s.tokenIds + 1) p buyer = .ok s2 ∧
      resellToken s2 (s.tokenIds + 1) p2 s.listingPrice buyer = .ok s3 ∧
      ∃ r ∈ fetchMarketItems s3, r.tokenId = s.tokenIds + 1 ∧ r.price = p2 := by
  have hInv := reachable_inv hreach
  obtain ⟨s1, h1⟩ := createToken_run uri (Nat.pos_iff_ne_zero.mp hp) rfl hs0
    (hInv.beyond_nft (s.tokenIds + 1) (Or.inr (by omega))) hInv.this_ne
  obtain ⟨hid1, _, _, _, _, _, hthis1, hown1, htok1, hsold1, hfee1,
    hitem1, hitemo1, hnft1, hnfto1, htr1⟩ := createToken_ok h1
  obtain ⟨s2, h2⟩ := createMarketSale_run
    (by rw [hitem1]) (by rw [hnft1, hthis1])
    (by rw [hthis1]; exact hInv.this_ne) hb0
  obtain ⟨hv2, hpre2, hpre2b, hpre2c, hthis2, hown2, htok2, hsold2, hfee2,
    hitem2, hitemo2, hnftn2, hnfto2, htr2⟩ := createMarketSale_ok h2
  obtain ⟨s3, h3⟩ := resellToken_run p2
    (by rw [hitem2]) (by rw [hfee2, hfee1])
    (by rw [hsold2]; exact Nat.succ_ne_zero _) hnftn2 hb0
    (by rw [hthis2, hthis1]; exact hInv.this_ne)
  obtain ⟨hpre3, hpre3b, hpre3c, hpre3d, hpre3e, hpre3f, hthis3, hown3, htok3,
    hsold3, hfee3, hitem3, hitemo3, hnftn3, hnfto3, htr3⟩ := resellToken_ok h3
  refine ⟨s1, s2, s3, h1, h2, h3, ?_⟩
  have howner3 : (s3.items (s.tokenIds + 1)).owner = s3.thisAddr := by
    rw [hitem3, hthis3]
  have htokid : (s3.items (s.tokenIds + 1)).tokenId = s.tokenIds + 1 := by
    rw [hitem3, hitem2, hitem1]
  have hprice3 : (s3.items (s.tokenIds + 1)).price = p2 := by rw [hitem3]
  refine ⟨s3.items (s.tokenIds + 1), ?_, htokid, hprice3⟩
  simp only [fetchMarketItems]
  refine List.mem_map.mpr ⟨s.tokenIds + 1, List.mem_filter.mpr ⟨?_, ?_⟩, rfl⟩
  · have hn3 : s3.tokenIds = s.tokenIds + 1 := by rw [htok3, htok2, htok1]
    exact mem_idsUpTo.mpr ⟨by omega, by omega⟩
  · simp [howner3]

theorem claim6_witness :
    ∃ s1 s2 s3,
      createToken exS0 "u" 5 exS0.listingPrice 2 = .ok (exS0.tokenIds + 1, s1) ∧
      createMarketSale s1 (exS0.tokenIds + 1) 5 3 = .ok s2 ∧
      resellToken s2 (exS0.tokenIds + 1) 7 exS0.listingPrice 3 = .ok s3 ∧
      ∃ r ∈ fetchMarketItems s3, r.tokenId = exS0.tokenIds + 1 ∧ r.price = 7 :=
  claim6_roundtrip exS0 "u" 5 7 2 3 reach_exS0 (by decide) (by decide)
    (by decide) (by decide) (by decide) (by decide) (by decide)

/-- C7 (amended): a cancel by the stored seller of an unsold record
succeeds with the claimed effects, and afterwards the listed-by-me query
no longer reports the item while the owned query does. A cancel by anyone
who is not the stored seller fails with Unauthorized; and because purchase
clears the seller to the zero address, a cancel on a sold record also
fails with Unauthorized for every nonzero caller, never reaching the
already-sold check, contrary to the original claim. -/
theorem claim7_cancel_behavior :
    (∀ s id c, Reachable s → c ≠ 0 → c ≠ s.thisAddr → 1 ≤ id →
        id ≤ s.tokenIds → (s.items id).seller = c → (s.items id).sold = false →
        ∃ s', cancelItemListing s id c = .ok s' ∧
          (s'.items id).owner = c ∧ (s'.items id).seller = 0 ∧
          (s'.items id).sold = true ∧ s'.itemsSold = s.itemsSold + 1 ∧
          (∀ r ∈ fetchItemsListed s' c, r.tokenId ≠ id) ∧
          (∃ r ∈ fetchMyNFTs s' c, r.tokenId = id)) ∧
    (∀ s id c, (s.items id).seller ≠ c →
        cancelItemListing s id c = .error .Unauthorized) ∧
    (∀ s id c, Reachable s → c ≠ 0 → 1 ≤ id → id ≤ s.tokenIds →
        (s.items id).sold = true →
        cancelItemListing s id c = .error .Unauthorized) := by
  have hunauth : ∀ s id c, (s.items id).seller ≠ c →
      cancelItemListing s id c = .error .Unauthorized := by
    intro s id c hne
    unfold cancelItemListing
    rw [if_pos hne]
  refine ⟨?_, hunauth, ?_⟩
  · intro s id c hreach hc0 hcthis h1 h2 hsel hsold
    have hInv := reachable_inv hreach
    have hnft : s.nftOwner id = s.thisAddr := by
      rw [hInv.nft_eq id h1 h2, (hInv.sold_iff id h1 h2).mp hsold]
    obtain ⟨s', hok⟩ := cancelItemListing_run hsel hsold hnft hInv.this_ne hc0
    have hreach' := Reachable.step s s' hreach
      (Step.cancel s id c s' ⟨hc0, hcthis⟩ hok)
    have hInv' := reachable_inv hreach'
    obtain ⟨_, _, _, _, _, hthis', hown', htok', hsold', hfee',
      hitem_new, hitem_old, hnft_new, hnft_old, htr'⟩ := cancelItemListing_ok hok
    refine ⟨s', hok, by rw [hitem_new], by rw [hitem_new], by rw [hitem_new],
      hsold', ?_, ?_⟩
    · intro r hr
      simp only [fetchItemsListed] at hr
      obtain ⟨i, hi, rfl⟩ := List.mem_map.mp hr
      obtain ⟨him, hpred⟩ := List.mem_filter.mp hi
      obtain ⟨hi1, hi2⟩ := mem_idsUpTo.mp him
      have hseli : (s'.items i).seller = c := by simpa using hpred
      intro htok_eq
      have hii : i = id := (hInv'.tokId i hi1 hi2).symm.trans htok_eq
      rw [hii] at hseli
      have h0 : (s'.items id).seller = 0 := by rw [hitem_new]
      rw [h0] at hseli
      exact hc0 hseli.symm
    · have howner : (s'.items id).owner = c := by rw [hitem_new]
      have hid2 : id ≤ s'.tokenIds := by rw [htok']; exact h2
      have htokid : (s'.items id).tokenId = id := hInv'.tokId id h1 hid2
      refine ⟨s'.items id, ?_, htokid⟩
      simp only [fetchMyNFTs]
      refine List.mem_map.mpr ⟨id, List.mem_filter.mpr ⟨?_, ?_⟩, rfl⟩
      · exact mem_idsUpTo.mpr ⟨h1, hid2⟩
      · simp [howner]
  · intro s id c hreach hc0 h1 h2 hsold
    have hInv := reachable_inv hreach
    have hsel0 := hInv.sold_seller id h1 h2 hsold
    refine hunauth s id c ?_
    rw [hsel0]
    exact fun h => hc0 h.symm

/-- C7 counterexample trace: token 1 has been sold, so its seller field is
cleared; cancelling it, whether by the original seller (account 2) or the
current owner (account 3), fails with Unauthorized, whereas the claim
demands AlreadySold for a sold record. -/
theorem claim7_counterexample :
    (exS2.items 1).sold = true ∧
      cancelItemListing exS2 1 2 = .error .Unauthorized ∧
      cancelItemListing exS2 1 3 = .error .Unauthorized ∧
      MarketErr.Unauthorized ≠ MarketErr.AlreadySold :=
  ⟨rfl, rfl, rfl, by decide⟩

theorem claim7_witness :
    (∃ s', cancelItemListing exS1 1 2 = .ok s' ∧
        (s'.items 1).owner = 2 ∧ (s'.items 1).seller = 0 ∧
        (s'.items 1).sold = true ∧ s'.itemsSold = exS1.itemsSold + 1 ∧
        (∀ r ∈ fetchItemsListed s' 2, r.tokenId ≠ 1) ∧
        (∃ r ∈ fetchMyNFTs s' 2, r.tokenId = 1)) ∧
      cancelItemListing exS0 1 5 = .error .Unauthorized :=
  ⟨claim7_cancel_behavior.1 exS1 1 2 reach_exS1 (by decide) (by decide)
      (by decide) (by decide) rfl rfl,
   claim7_cancel_behavior.2.1 exS0 1 5 (by decide)⟩

end NFTMarket
